import Mathlib

/-!
Verification of the reconoscope core scanning engine.

The definitions below are a shallow embedding of the Python sources of the
`reconoscope` repository (`reconoscope/wmn/_scanner.py`,
`reconoscope/wmn/_collection.py`, `reconoscope/wmn/_schema.py`,
`reconoscope/http/_retry.py`, `reconoscope/http/_client.py`).
Bytes are modelled as natural numbers, byte strings as `List Nat`,
Python `str` values as Lean `String`; `None`-able values become `Option`.
-/

namespace Reconoscope

/-- Python `bytes` are modelled as lists of naturals. -/
abbrev Bytes := List Nat

/-- Test whether `needle` occurs at the start of `hay` (Python `hay.startswith(needle)`). -/
def bytesStartW : Bytes → Bytes → Bool
  | _, [] => true
  | [], _ :: _ => false
  | h :: hs, n :: ns => h == n && bytesStartW hs ns

/-- Python's `needle in hay` substring test on bytes. -/
def bytesContain (hay needle : Bytes) : Bool :=
  match hay with
  | [] => bytesStartW [] needle
  | _ :: hs => bytesStartW hay needle || bytesContain hs needle

/-- Model of `_encode_nullable` from `_scanner.py`: `s.encode('utf-8') if s else b''`.
Markers arrive already as byte lists; `none` and the empty marker both give `[]`. -/
def encode_nullable : Option Bytes → Bytes
  | none => []
  | some s => s

/-- The constant `_WMNStreamReader._MB_IN_BYTES`. -/
def MB_IN_BYTES : Nat := 1048576

/-- The loop body of `_WMNStreamReader.check_stream`, one constructor case per
loop iteration.  Arguments mirror the reader's state: `needPos`/`needNeg` are
`bool(self._pos_identifier)` / `bool(self._negative_identifier)`, `boundary`
is `self._overlap_boundary`, then `total_read`, the two monotone seen-flags,
`self._tail`, and the remaining chunks of `response.aiter_bytes`. -/
def checkStreamAux (needPos needNeg : Bool) (posId negId : Bytes)
    (boundary maxBytes : Nat) :
    Nat → Bool → Bool → Bytes → List Bytes → Bool
  | _, seenPos, seenNeg, _, [] =>
      (needPos && seenPos) && !(needNeg && seenNeg)
  | totalRead, seenPos, seenNeg, tail, chunk :: rest =>
      if totalRead + chunk.length > maxBytes then
        (needPos && seenPos) && !(needNeg && seenNeg)
      else
        let buffer := tail ++ chunk
        let seenPos' := seenPos || (needPos && bytesContain buffer posId)
        let seenNeg' := seenNeg || (needNeg && bytesContain buffer negId)
        if needNeg && seenNeg' then false
        else if needPos && seenPos' && !needNeg then true
        else
          checkStreamAux needPos needNeg posId negId boundary maxBytes
            (totalRead + chunk.length) seenPos' seenNeg'
            (if boundary > 0 then buffer.drop (buffer.length - boundary) else [])
            rest

/-- Same loop, but reporting the (seen-positive, seen-negative) flag pair the
reader holds when the loop exits (by early return, byte cap, or stream end). -/
def streamFlagsAux (needPos needNeg : Bool) (posId negId : Bytes)
    (boundary maxBytes : Nat) :
    Nat → Bool → Bool → Bytes → List Bytes → Bool × Bool
  | _, seenPos, seenNeg, _, [] => (seenPos, seenNeg)
  | totalRead, seenPos, seenNeg, tail, chunk :: rest =>
      if totalRead + chunk.length > maxBytes then (seenPos, seenNeg)
      else
        let buffer := tail ++ chunk
        let seenPos' := seenPos || (needPos && bytesContain buffer posId)
        let seenNeg' := seenNeg || (needNeg && bytesContain buffer negId)
        if needNeg && seenNeg' then (seenPos', seenNeg')
        else if needPos && seenPos' && !needNeg then (seenPos', seenNeg')
        else
          streamFlagsAux needPos needNeg posId negId boundary maxBytes
            (totalRead + chunk.length) seenPos' seenNeg'
            (if boundary > 0 then buffer.drop (buffer.length - boundary) else [])
            rest

/-- Model of `_WMNStreamReader.__init__` followed by `check_stream(max_size_mb)`:
builds the identifiers, need-flags and overlap boundary exactly as the
constructor does and runs the streaming loop on the chunk list. -/
def check_stream (must_contain must_not_contain : Option Bytes)
    (max_size_mb : Nat) (chunks : List Bytes) : Bool :=
  let posId := encode_nullable must_contain
  let negId := encode_nullable must_not_contain
  let needPos := posId != []
  let needNeg := negId != []
  let boundary := max (max posId.length negId.length) 1 - 1
  checkStreamAux needPos needNeg posId negId boundary
    (max_size_mb * MB_IN_BYTES) 0 false false [] chunks

/-- The flag pair `check_stream` is left with at loop exit. -/
def streamFlags (must_contain must_not_contain : Option Bytes)
    (max_size_mb : Nat) (chunks : List Bytes) : Bool × Bool :=
  let posId := encode_nullable must_contain
  let negId := encode_nullable must_not_contain
  let needPos := posId != []
  let needNeg := negId != []
  let boundary := max (max posId.length negId.length) 1 - 1
  streamFlagsAux needPos needNeg posId negId boundary
    (max_size_mb * MB_IN_BYTES) 0 false false [] chunks

/-! ### Facts about the byte-substring test -/

theorem bytesStartW_iff : ∀ (hay m : Bytes), bytesStartW hay m = true ↔ ∃ t, m ++ t = hay
  | hay, [] => by simp [bytesStartW]
  | [], _ :: _ => by simp [bytesStartW]
  | h :: hs, n :: ns => by
      simp only [bytesStartW, Bool.and_eq_true, beq_iff_eq]
      constructor
      · rintro ⟨rfl, hrest⟩
        obtain ⟨t, rfl⟩ := (bytesStartW_iff hs ns).1 hrest
        exact ⟨t, rfl⟩
      · rintro ⟨t, ht⟩
        injection ht with h1 h2
        subst h1
        exact ⟨rfl, (bytesStartW_iff hs ns).2 ⟨t, h2⟩⟩

theorem bytesContain_iff : ∀ (hay m : Bytes), bytesContain hay m = true ↔ ∃ s t, s ++ m ++ t = hay
  | [], m => by
      constructor
      · intro h
        obtain ⟨t, ht⟩ := (bytesStartW_iff [] m).1 h
        exact ⟨[], t, by simpa using ht⟩
      · rintro ⟨s, t, ht⟩
        simp only [List.append_eq_nil] at ht
        obtain ⟨⟨rfl, rfl⟩, rfl⟩ := ht
        rfl
  | h :: hs, m => by
      simp only [bytesContain, Bool.or_eq_true, bytesStartW_iff, bytesContain_iff hs m]
      constructor
      · rintro (⟨t, ht⟩ | ⟨s, t, ht⟩)
        · exact ⟨[], t, by simpa using ht⟩
        · exact ⟨h :: s, t, by simpa using ht⟩
      · rintro ⟨s, t, ht⟩
        cases s with
        | nil => exact Or.inl ⟨t, by simpa using ht⟩
        | cons a as =>
            injection ht with h1 h2
            exact Or.inr ⟨as, t, h2⟩

theorem bytesContain_append_left (pre hay m : Bytes)
    (h : bytesContain hay m = true) : bytesContain (pre ++ hay) m = true := by
  obtain ⟨s, t, rfl⟩ := (bytesContain_iff hay m).1 h
  exact (bytesContain_iff _ m).2 ⟨pre ++ s, t, by simp⟩

/-- An occurrence of `m` inside `c1 ++ c2` that is not wholly inside `c1`
survives in the last `m.length - 1` bytes of `c1` glued to `c2`. -/
theorem contain_cross_boundary (m c1 c2 : Bytes) (hm : m ≠ [])
    (hcat : bytesContain (c1 ++ c2) m = true)
    (hnot : bytesContain c1 m = false) :
    bytesContain (c1.drop (c1.length - (m.length - 1)) ++ c2) m = true := by
  have hmlen : 1 ≤ m.length := List.length_pos.mpr hm
  obtain ⟨s, t, heq⟩ := (bytesContain_iff _ m).1 hcat
  by_cases hsm : s.length + m.length ≤ c1.length
  · exfalso
    have htake := congrArg (List.take c1.length) heq
    rw [List.take_append_eq_append_take, List.take_left' rfl] at htake
    rw [List.take_of_length_le
      (by simp only [List.length_append]; omega : (s ++ m).length ≤ c1.length)] at htake
    have : bytesContain c1 m = true :=
      (bytesContain_iff c1 m).2 ⟨s, _, htake⟩
    simp [this] at hnot
  · set d := c1.length - (m.length - 1) with hd
    have hds : d ≤ s.length := by omega
    have hdc : d ≤ c1.length := by omega
    have hdrop := congrArg (List.drop d) heq
    rw [List.drop_append_eq_append_drop, List.drop_append_eq_append_drop] at hdrop
    rw [Nat.sub_eq_zero_of_le hds, List.drop_zero] at hdrop
    rw [show d - (s ++ m).length = 0 from
      by simp only [List.length_append]; omega, List.drop_zero] at hdrop
    rw [List.drop_append_eq_append_drop] at hdrop
    rw [Nat.sub_eq_zero_of_le hdc, List.drop_zero] at hdrop
    exact (bytesContain_iff _ m).2 ⟨_, _, hdrop⟩

/-- The reader's tail update (`buffer[-overlap_boundary:]` guarded by
`overlap_boundary > 0`) is a plain `drop` in both branches. -/
theorem ifTail_eq (b : Nat) (l : Bytes) :
    (if b > 0 then l.drop (l.length - b) else []) = l.drop (l.length - b) := by
  split
  · rfl
  · next hb =>
      have hb0 : b = 0 := by omega
      subst hb0
      simp [List.drop_length]

/-- The last `b'` bytes of `c1` form a suffix of the last `b` bytes of
`tail ++ c1` whenever `b' ≤ b`. -/
theorem drop_sub_suffix (tail c1 : Bytes) (b' b : Nat) (hb : b' ≤ b) :
    ∃ pre, pre ++ c1.drop (c1.length - b') =
      (tail ++ c1).drop ((tail ++ c1).length - b) := by
  set L := tail ++ c1 with hL
  set k := L.length - b with hk
  set j := c1.length - b' with hj
  have hLlen : L.length = tail.length + c1.length := by simp [hL]
  have hkj : k ≤ tail.length + j := by omega
  have h1 : L.drop (tail.length + j) = c1.drop j := by
    rw [hL, List.drop_append_eq_append_drop,
      List.drop_eq_nil_of_le (by omega : tail.length ≤ tail.length + j)]
    simp only [List.nil_append]
    congr 1
    omega
  have h2 : L.drop (tail.length + j) = (L.drop k).drop (tail.length + j - k) := by
    rw [List.drop_drop]
    congr 1
    omega
  refine ⟨(L.drop k).take (tail.length + j - k), ?_⟩
  rw [← h1, h2, List.take_append_drop]

/-- Every exit of the streaming loop returns exactly
`(need-positive AND seen-positive) AND NOT (need-negative AND seen-negative)`
evaluated at the flag pair held when the loop exits. -/
theorem checkStreamAux_eq_flags (needPos needNeg : Bool) (posId negId : Bytes)
    (boundary maxBytes : Nat) :
    ∀ (chunks : List Bytes) (totalRead : Nat) (seenPos seenNeg : Bool) (tail : Bytes),
      checkStreamAux needPos needNeg posId negId boundary maxBytes
          totalRead seenPos seenNeg tail chunks
        = ((needPos && (streamFlagsAux needPos needNeg posId negId boundary maxBytes
              totalRead seenPos seenNeg tail chunks).1)
            && !(needNeg && (streamFlagsAux needPos needNeg posId negId boundary maxBytes
              totalRead seenPos seenNeg tail chunks).2))
  | [], _, _, _, _ => by simp [checkStreamAux, streamFlagsAux]
  | chunk :: rest, totalRead, seenPos, seenNeg, tail => by
      simp only [checkStreamAux, streamFlagsAux]
      split
      · rfl
      · split
        · next hneg => simp [hneg]
        · next hneg =>
            split
            · next hpos =>
                simp_all
                tauto
            · exact checkStreamAux_eq_flags needPos needNeg posId negId boundary maxBytes
                rest (totalRead + chunk.length) _ _ _

end Reconoscope

namespace Reconoscope

example :
    check_stream (some [72, 69, 76, 76, 79]) none 10
      [[120, 120, 72, 69, 76], [76, 79, 120, 120]] = true := by decide

example :
    check_stream (some [79, 75]) (some [78, 79, 84]) 10
      [[79, 75, 32, 78, 79, 84]] = false := by decide

end Reconoscope

namespace Reconoscope

/-- C2: with both a success and a failure marker configured, `check_stream`
returns exactly (seen-success AND NOT seen-failure); whenever the failure
marker is observed in the current buffer the loop terminates at once with
`false` regardless of the success flag; and the spec's concrete vector
(body "OK" then "NOTFOUND") resolves to false. -/
theorem wmn_c2_failure_precedence :
    (∀ (pos neg : Bytes), pos ≠ [] → neg ≠ [] → ∀ (mb : Nat) (chunks : List Bytes),
       check_stream (some pos) (some neg) mb chunks
         = ((streamFlags (some pos) (some neg) mb chunks).1
             && !(streamFlags (some pos) (some neg) mb chunks).2))
  ∧ (∀ (pos neg : Bytes) (boundary maxBytes totalRead : Nat)
       (seenPos seenNeg : Bool) (tail chunk : Bytes) (rest : List Bytes),
       totalRead + chunk.length ≤ maxBytes →
       bytesContain (tail ++ chunk) neg = true →
       checkStreamAux true true pos neg boundary maxBytes
         totalRead seenPos seenNeg tail (chunk :: rest) = false)
  ∧ check_stream (some [79, 75]) (some [78, 79, 84, 70, 79, 85, 78, 68]) 10
      [[97, 97, 79, 75, 98, 98], [99, 78, 79, 84, 70, 79, 85, 78, 68, 99]] = false := by
  refine ⟨?_, ?_, by decide⟩
  · intro pos neg hpos hneg mb chunks
    have hp : (pos != ([] : Bytes)) = true := bne_iff_ne.mpr hpos
    have hn : (neg != ([] : Bytes)) = true := bne_iff_ne.mpr hneg
    simp only [check_stream, streamFlags, encode_nullable, hp, hn]
    rw [checkStreamAux_eq_flags]
    simp
  · intro pos neg boundary maxBytes totalRead seenPos seenNeg tail chunk rest hcap hfound
    have h1 : ¬ (totalRead + chunk.length > maxBytes) := by omega
    simp [checkStreamAux, h1, hfound]

theorem wmn_c2_witness :
    checkStreamAux true true [79, 75] [78] 4 100 0 false false [] [[97, 78, 97]] = false :=
  wmn_c2_failure_precedence.2.1 [79, 75] [78] 4 100 0 false false [] [97, 78, 97] []
    (by decide) (by decide)

end Reconoscope

namespace Reconoscope

/-- Once the success flag is set it never resets: the flag pair reported at
loop exit has a true first component from any state whose success flag is
already true. -/
theorem streamFlagsAux_pos_mono (needNeg : Bool) (posId negId : Bytes)
    (boundary maxBytes : Nat) :
    ∀ (chunks : List Bytes) (totalRead : Nat) (seenNeg : Bool) (tail : Bytes),
      (streamFlagsAux true needNeg posId negId boundary maxBytes
        totalRead true seenNeg tail chunks).1 = true
  | [], _, _, _ => rfl
  | chunk :: rest, totalRead, seenNeg, tail => by
      simp only [streamFlagsAux, Bool.true_or]
      split
      · rfl
      · split
        · rfl
        · split
          · rfl
          · exact streamFlagsAux_pos_mono needNeg posId negId boundary maxBytes
              rest (totalRead + chunk.length) _ _

/-- A scan step whose buffer contains the success marker leaves the loop with
the success flag set, whatever the failure marker does afterwards. -/
theorem streamFlagsAux_step_sets_pos
    (pos neg : Bytes) (boundary maxBytes totalRead : Nat) (seenPos : Bool)
    (tail chunk : Bytes) (rest : List Bytes)
    (hcap : totalRead + chunk.length ≤ maxBytes)
    (hfound : bytesContain (tail ++ chunk) pos = true) :
    (streamFlagsAux true true pos neg boundary maxBytes totalRead seenPos false tail
      (chunk :: rest)).1 = true := by
  have h1 : ¬ (totalRead + chunk.length > maxBytes) := by omega
  simp only [streamFlagsAux]
  rw [if_neg h1]
  simp only [hfound, Bool.and_true, Bool.or_true, Bool.true_and, Bool.not_true,
    Bool.and_false]
  split
  · rfl
  · split
    · rfl
    · exact streamFlagsAux_pos_mono true pos neg boundary maxBytes rest _ _ _

/-- With both markers needed, a failure-marker occurrence spanning the
boundary between the next two chunks is detected (the kept tail of at least
`len(failure) − 1` bytes restores the overlap) and the scan resolves to
failure, whatever the success flag holds. -/
theorem checkStreamAux_neg_boundary
    (pos neg : Bytes) (boundary maxBytes totalRead : Nat) (seenPos : Bool)
    (tail c1 c2 : Bytes) (rest : List Bytes)
    (hneg : neg ≠ []) (hb : neg.length - 1 ≤ boundary)
    (hcap1 : totalRead + c1.length ≤ maxBytes)
    (hcap2 : totalRead + c1.length + c2.length ≤ maxBytes)
    (hcat : bytesContain (c1 ++ c2) neg = true) :
    checkStreamAux true true pos neg boundary maxBytes totalRead seenPos false tail
      (c1 :: c2 :: rest) = false := by
  have hnlen : 1 ≤ neg.length := List.length_pos.mpr hneg
  have h1 : ¬ (totalRead + c1.length > maxBytes) := by omega
  have h2 : ¬ (totalRead + c1.length + c2.length > maxBytes) := by omega
  by_cases hfound : bytesContain (tail ++ c1) neg = true
  · simp [checkStreamAux, h1, hfound]
  · have hfound2 : bytesContain (tail ++ c1) neg = false := by simpa using hfound
    have hnotc1 : bytesContain c1 neg = false := by
      by_contra hc
      have hc2 : bytesContain c1 neg = true := by simpa using hc
      have := bytesContain_append_left tail c1 neg hc2
      simp [this] at hfound2
    have hcross := contain_cross_boundary neg c1 c2 hneg hcat hnotc1
    by_cases hbpos : 0 < boundary
    · obtain ⟨pre, hpre⟩ := drop_sub_suffix tail c1 (neg.length - 1) boundary hb
      have hkept : bytesContain
          ((tail ++ c1).drop ((tail ++ c1).length - boundary) ++ c2) neg = true := by
        rw [← hpre, List.append_assoc]
        exact bytesContain_append_left pre _ neg hcross
      simp only [List.length_append] at hkept
      simp [checkStreamAux, h1, h2, hfound2, hbpos, hkept]
    · have hb0 : boundary = 0 := by omega
      have hn1 : neg.length = 1 := by omega
      have hc2only : bytesContain c2 neg = true := by
        have hcr := hcross
        rw [hn1] at hcr
        simpa [List.drop_length] using hcr
      simp [checkStreamAux, h1, h2, hfound2, hb0, hc2only]

/-- With both markers needed, a success-marker occurrence spanning the
boundary between the next two chunks sets the success flag, provided the
failure marker has not already ended the scan at the first of the two
chunks. -/
theorem streamFlagsAux_pos_boundary
    (pos neg : Bytes) (boundary maxBytes totalRead : Nat) (seenPos : Bool)
    (tail c1 c2 : Bytes) (rest : List Bytes)
    (hpos : pos ≠ []) (hb : pos.length - 1 ≤ boundary)
    (hcap1 : totalRead + c1.length ≤ maxBytes)
    (hcap2 : totalRead + c1.length + c2.length ≤ maxBytes)
    (hcat : bytesContain (c1 ++ c2) pos = true)
    (hnegfree : bytesContain (tail ++ c1) neg = false) :
    (streamFlagsAux true true pos neg boundary maxBytes totalRead seenPos false tail
      (c1 :: c2 :: rest)).1 = true := by
  have hplen : 1 ≤ pos.length := List.length_pos.mpr hpos
  have h1 : ¬ (totalRead + c1.length > maxBytes) := by omega
  by_cases hfound : bytesContain (tail ++ c1) pos = true
  · exact streamFlagsAux_step_sets_pos pos neg boundary maxBytes totalRead seenPos
      tail c1 (c2 :: rest) hcap1 hfound
  · cases hsp : seenPos with
    | true =>
        exact streamFlagsAux_pos_mono true pos neg boundary maxBytes
          (c1 :: c2 :: rest) totalRead false tail
    | false =>
        have hfound2 : bytesContain (tail ++ c1) pos = false := by simpa using hfound
        have hnotc1 : bytesContain c1 pos = false := by
          by_contra hc
          have hc2 : bytesContain c1 pos = true := by simpa using hc
          have := bytesContain_append_left tail c1 pos hc2
          simp [this] at hfound2
        have hcross := contain_cross_boundary pos c1 c2 hpos hcat hnotc1
        rw [streamFlagsAux, if_neg h1]
        dsimp only
        simp only [hfound2, hnegfree, Bool.and_false, Bool.or_false, Bool.false_and,
          Bool.and_true, Bool.true_and, Bool.not_true, Bool.false_eq_true, if_false]
        by_cases hbpos : 0 < boundary
        · obtain ⟨pre, hpre⟩ := drop_sub_suffix tail c1 (pos.length - 1) boundary hb
          have hkept : bytesContain
              ((tail ++ c1).drop ((tail ++ c1).length - boundary) ++ c2) pos = true := by
            rw [← hpre, List.append_assoc]
            exact bytesContain_append_left pre _ pos hcross
          rw [if_pos hbpos]
          exact streamFlagsAux_step_sets_pos pos neg boundary maxBytes
            (totalRead + c1.length) false
            ((tail ++ c1).drop ((tail ++ c1).length - boundary)) c2 rest
            (by omega) hkept
        · have hb0 : boundary = 0 := by omega
          have hp1 : pos.length = 1 := by omega
          have hc2only : bytesContain c2 pos = true := by
            have hcr := hcross
            rw [hp1] at hcr
            simpa [List.drop_length] using hcr
          rw [if_neg hbpos]
          exact streamFlagsAux_step_sets_pos pos neg boundary maxBytes
            (totalRead + c1.length) false [] c2 rest
            (by omega) (by simpa using hc2only)

/-- With only a success marker `m` configured, from any reader state a marker
occurrence spanning the boundary between the next two chunks is detected and
the loop returns success. -/
theorem checkStreamAux_pos_only_boundary
    (m : Bytes) (hm : m ≠ []) (maxBytes totalRead : Nat) (seenPos : Bool)
    (tail c1 c2 : Bytes) (rest : List Bytes)
    (hcap1 : totalRead + c1.length ≤ maxBytes)
    (hcap2 : totalRead + c1.length + c2.length ≤ maxBytes)
    (hcat : bytesContain (c1 ++ c2) m = true) :
    checkStreamAux true false m [] (m.length - 1) maxBytes
      totalRead seenPos false tail (c1 :: c2 :: rest) = true := by
  have hmlen : 1 ≤ m.length := List.length_pos.mpr hm
  have h1 : ¬ (totalRead + c1.length > maxBytes) := by omega
  have h2 : ¬ (totalRead + c1.length + c2.length > maxBytes) := by omega
  by_cases hfound : bytesContain (tail ++ c1) m = true
  · simp [checkStreamAux, h1, hfound]
  · have hfound2 : bytesContain (tail ++ c1) m = false := by
      simpa using hfound
    cases hsp : seenPos with
    | true => simp [checkStreamAux, h1, hsp]
    | false =>
        have hnotc1 : bytesContain c1 m = false := by
          by_contra hc
          have hc2 : bytesContain c1 m = true := by simpa using hc
          have := bytesContain_append_left tail c1 m hc2
          simp [this] at hfound2
        have hcross := contain_cross_boundary m c1 c2 hm hcat hnotc1
        obtain ⟨pre, hpre⟩ :=
          drop_sub_suffix tail c1 (m.length - 1) (m.length - 1) (Nat.le_refl _)
        have hkept : bytesContain
            ((tail ++ c1).drop ((tail ++ c1).length - (m.length - 1)) ++ c2) m = true := by
          rw [← hpre, List.append_assoc]
          exact bytesContain_append_left pre _ m hcross
        simp only [List.length_append] at hkept
        by_cases hb : 1 < m.length
        · simp [checkStreamAux, h1, h2, hfound2, hb, hkept]
        · have hm1 : m.length = 1 := by omega
          have hc2only : bytesContain c2 m = true := by
            have hcr := hcross
            rw [hm1] at hcr
            simpa [List.drop_length] using hcr
          simp [checkStreamAux, h1, h2, hfound2, hb, hm1, hc2only]

/-- C3: with the trailing buffer of `max(len(success), len(failure)) − 1`
bytes, a marker occurrence spanning the boundary between two consecutive
chunks is still detected, in every marker configuration: with both markers
needed, a spanning failure marker is detected and resolves the scan to
failure, and a spanning success marker sets the success flag whenever the
failure marker has not already ended the scan on the earlier chunk; with only
a success marker the scan resolves to success; at the `check_stream` level a
failure marker across the first boundary yields failure and a success marker
across it sets the success flag; and the spec's concrete vector ("xxHEL",
"LOxx" with success marker "HELLO" and no failure marker) returns success. -/
theorem wmn_c3_marker_across_boundary :
    (∀ (pos neg : Bytes) (boundary maxBytes totalRead : Nat) (seenPos : Bool)
       (tail c1 c2 : Bytes) (rest : List Bytes),
       neg ≠ [] → neg.length - 1 ≤ boundary →
       totalRead + c1.length ≤ maxBytes →
       totalRead + c1.length + c2.length ≤ maxBytes →
       bytesContain (c1 ++ c2) neg = true →
       checkStreamAux true true pos neg boundary maxBytes totalRead seenPos false tail
         (c1 :: c2 :: rest) = false)
  ∧ (∀ (pos neg : Bytes) (boundary maxBytes totalRead : Nat) (seenPos : Bool)
       (tail c1 c2 : Bytes) (rest : List Bytes),
       pos ≠ [] → pos.length - 1 ≤ boundary →
       totalRead + c1.length ≤ maxBytes →
       totalRead + c1.length + c2.length ≤ maxBytes →
       bytesContain (c1 ++ c2) pos = true →
       bytesContain (tail ++ c1) neg = false →
       (streamFlagsAux true true pos neg boundary maxBytes totalRead seenPos false tail
         (c1 :: c2 :: rest)).1 = true)
  ∧ (∀ (m : Bytes) (maxBytes totalRead : Nat) (seenPos : Bool)
       (tail c1 c2 : Bytes) (rest : List Bytes),
       m ≠ [] →
       totalRead + c1.length ≤ maxBytes →
       totalRead + c1.length + c2.length ≤ maxBytes →
       bytesContain (c1 ++ c2) m = true →
       checkStreamAux true false m [] (m.length - 1) maxBytes
         totalRead seenPos false tail (c1 :: c2 :: rest) = true)
  ∧ (∀ (pos neg : Bytes) (mb : Nat) (c1 c2 : Bytes) (rest : List Bytes),
       pos ≠ [] → neg ≠ [] →
       c1.length ≤ mb * MB_IN_BYTES →
       c1.length + c2.length ≤ mb * MB_IN_BYTES →
       bytesContain (c1 ++ c2) neg = true →
       check_stream (some pos) (some neg) mb (c1 :: c2 :: rest) = false)
  ∧ (∀ (pos neg : Bytes) (mb : Nat) (c1 c2 : Bytes) (rest : List Bytes),
       pos ≠ [] → neg ≠ [] →
       c1.length ≤ mb * MB_IN_BYTES →
       c1.length + c2.length ≤ mb * MB_IN_BYTES →
       bytesContain (c1 ++ c2) pos = true →
       bytesContain c1 neg = false →
       (streamFlags (some pos) (some neg) mb (c1 :: c2 :: rest)).1 = true)
  ∧ check_stream (some [72, 69, 76, 76, 79]) none 10
      [[120, 120, 72, 69, 76], [76, 79, 120, 120]] = true := by
  refine ⟨?_, ?_, ?_, ?_, ?_, by decide⟩
  · intro pos neg boundary maxBytes totalRead seenPos tail c1 c2 rest
      hneg hb hcap1 hcap2 hcat
    exact checkStreamAux_neg_boundary pos neg boundary maxBytes totalRead seenPos
      tail c1 c2 rest hneg hb hcap1 hcap2 hcat
  · intro pos neg boundary maxBytes totalRead seenPos tail c1 c2 rest
      hpos hb hcap1 hcap2 hcat hnegfree
    exact streamFlagsAux_pos_boundary pos neg boundary maxBytes totalRead seenPos
      tail c1 c2 rest hpos hb hcap1 hcap2 hcat hnegfree
  · intro m maxBytes totalRead seenPos tail c1 c2 rest hm hcap1 hcap2 hcat
    exact checkStreamAux_pos_only_boundary m hm maxBytes totalRead seenPos
      tail c1 c2 rest hcap1 hcap2 hcat
  · intro pos neg mb c1 c2 rest hpos hneg hcap1 hcap2 hcat
    have hp : (pos != ([] : Bytes)) = true := bne_iff_ne.mpr hpos
    have hn : (neg != ([] : Bytes)) = true := bne_iff_ne.mpr hneg
    simp only [check_stream, encode_nullable, hp, hn]
    exact checkStreamAux_neg_boundary pos neg _ _ 0 false [] c1 c2 rest hneg
      (by omega) (by simpa using hcap1) (by simpa using hcap2) hcat
  · intro pos neg mb c1 c2 rest hpos hneg hcap1 hcap2 hcat hnegfree
    have hp : (pos != ([] : Bytes)) = true := bne_iff_ne.mpr hpos
    have hn : (neg != ([] : Bytes)) = true := bne_iff_ne.mpr hneg
    simp only [streamFlags, encode_nullable, hp, hn]
    exact streamFlagsAux_pos_boundary pos neg _ _ 0 false [] c1 c2 rest hpos
      (by omega) (by simpa using hcap1) (by simpa using hcap2) hcat
      (by simpa using hnegfree)

theorem wmn_c3_witness :
    (streamFlags (some [72, 69, 76, 76, 79]) (some [78, 79, 80, 69]) 10
      [[120, 120, 72, 69, 76], [76, 79, 120, 120]]).1 = true :=
  wmn_c3_marker_across_boundary.2.2.2.2.1 [72, 69, 76, 76, 79] [78, 79, 80, 69] 10
    [120, 120, 72, 69, 76] [76, 79, 120, 120] [] (by decide) (by decide) (by decide)
    (by decide) (by decide) (by decide)

/-- C4: when the cumulative read crosses the byte cap on the next chunk, the
loop stops and resolves with the flags set so far — it is not forced to
failure, and the remaining chunks are ignored. -/
theorem wmn_c4_byte_cap (needPos needNeg : Bool) (posId negId : Bytes)
    (boundary maxBytes totalRead : Nat) (seenPos seenNeg : Bool)
    (tail chunk : Bytes) (rest : List Bytes)
    (hcap : totalRead + chunk.length > maxBytes) :
    checkStreamAux needPos needNeg posId negId boundary maxBytes
        totalRead seenPos seenNeg tail (chunk :: rest)
      = ((needPos && seenPos) && !(needNeg && seenNeg)) := by
  simp [checkStreamAux, hcap]

theorem wmn_c4_witness :
    checkStreamAux true true [1] [2] 0 5 4 true false [] [[9, 9, 9], [2]] = true := by
  have h := wmn_c4_byte_cap true true [1] [2] 0 5 4 true false [] [9, 9, 9] [[2]]
    (by decide)
  simpa using h

end Reconoscope

namespace Reconoscope

/-! ### Worker-process count (`_scanner.py`, `_get_proc_count`) -/

/-- Model of `_get_proc_count(chunk_size)` = `max(1, os.cpu_count() or 1) * chunk_size // 100`,
with `os.cpu_count()` supplied as an argument; `cpuCount = 0` models a falsy
`os.cpu_count()` result (`None`), which `or 1` turns into 1. -/
def get_proc_count (cpuCount chunk_size : Nat) : Nat :=
  max 1 (if cpuCount == 0 then 1 else cpuCount) * chunk_size / 100

/-- C1 counterexample: with 1 available CPU and the minimal configured chunk
size 2, the derived worker-process count is 0, not at least 1. -/
theorem wmn_c1_counterexample :
    get_proc_count 1 2 = 0 ∧ ¬ (1 ≤ get_proc_count 1 2) := by decide

/-- C1 amended: for any CPU count `c ≥ 1` the derived count equals
`c * chunk_size // 100` (only the CPU count is floored at 1, not the result),
and it is at least 1 exactly when `c * chunk_size ≥ 100`. -/
theorem wmn_c1_amended (cpuCount chunk_size : Nat) (hc : 1 ≤ cpuCount) :
    get_proc_count cpuCount chunk_size = cpuCount * chunk_size / 100
  ∧ (1 ≤ get_proc_count cpuCount chunk_size ↔ 100 ≤ cpuCount * chunk_size) := by
  have h0 : (cpuCount == 0) = false := by
    simp only [beq_eq_false_iff_ne, ne_eq]
    omega
  have hmax : max 1 cpuCount = cpuCount := Nat.max_eq_right hc
  have heq : get_proc_count cpuCount chunk_size = cpuCount * chunk_size / 100 := by
    simp [get_proc_count, h0, hmax]
  refine ⟨heq, ?_⟩
  rw [heq]
  constructor
  · intro h
    have h100 := (Nat.le_div_iff_mul_le (by omega : 0 < 100)).1 h
    omega
  · intro h
    exact (Nat.le_div_iff_mul_le (by omega : 0 < 100)).2 (by omega)

theorem wmn_c1_amended_witness :
    get_proc_count 4 100 = 4 * 100 / 100
  ∧ (1 ≤ get_proc_count 4 100 ↔ 100 ≤ 4 * 100) :=
  wmn_c1_amended 4 100 (by decide)

/-! ### RetryPolicy (`reconoscope/http/_retry.py`) -/

/-- One call of the wrapped coroutine: a returned value, one of the allowlisted
transient network errors of `retry_policy._HTTPX_ERRORS`, or any other
exception.  Exceptions are identified by a numeric payload. -/
inductive CallOutcome (R : Type) where
  | ok (r : R)
  | transient (e : Nat)
  | fatal (e : Nat)
deriving Repr, DecidableEq

/-- The observable result of `retry_policy.call_with_retries`: a value, a
`NoAttemptsLeftError` wrapping its `from` cause (`none` when the loop body
never ran), or an exception propagated unretried and unwrapped. -/
inductive RetryResult (R : Type) where
  | value (r : R)
  | noAttemptsLeft (cause : Option Nat)
  | uncaught (e : Nat)
deriving Repr, DecidableEq

/-- The `for attempt_no in range(1, attempts + 1)` loop of `call_with_retries`.
`remaining` counts the loop iterations left (`attempts + 1 - attempt_no`) and
`last` is `last_exc`; when the loop ends without returning, the trailing
`raise NoAttemptsLeftError(...) from last_exc` fires.  On an allowlisted error
at the final attempt the loop raises the exhaustion error from that error;
any other exception propagates immediately (`except Exception: raise`). -/
def retryLoop {R : Type} (f : Nat → CallOutcome R) (attempts : Nat) :
    Nat → Nat → Option Nat → RetryResult R
  | _, 0, last => RetryResult.noAttemptsLeft last
  | attemptNo, remaining + 1, _ =>
      match f attemptNo with
      | CallOutcome.ok r => RetryResult.value r
      | CallOutcome.fatal e => RetryResult.uncaught e
      | CallOutcome.transient e =>
          if attemptNo == attempts then RetryResult.noAttemptsLeft (some e)
          else retryLoop f attempts (attemptNo + 1) remaining (some e)

/-- Model of `retry_policy(attempts=...).call_with_retries(func)` where `f n` is the
outcome of the `n`-th call of `func` (attempts are numbered from 1). -/
def call_with_retries {R : Type} (attempts : Nat) (f : Nat → CallOutcome R) :
    RetryResult R :=
  retryLoop f attempts 1 attempts none

theorem retryLoopSucceeds {R : Type} (k : Nat) (v : R) (g : Nat → Nat)
    (f : Nat → CallOutcome R)
    (hf1 : ∀ n, 1 ≤ n → n ≤ k → f n = CallOutcome.transient (g n))
    (hf2 : f (k + 1) = CallOutcome.ok v) :
    ∀ (rem a : Nat) (last : Option Nat), a + rem = k + 2 → 1 ≤ a → a ≤ k + 1 →
      retryLoop f (k + 1) a rem last = RetryResult.value v
  | 0, a, last => by
      intro h1 h2 h3
      omega
  | rem + 1, a, last => by
      intro h1 h2 h3
      by_cases hak : a ≤ k
      · simp only [retryLoop, hf1 a h2 hak]
        rw [if_neg (by simp only [beq_iff_eq]; omega)]
        exact retryLoopSucceeds k v g f hf1 hf2 rem (a + 1) (some (g a))
          (by omega) (by omega) (by omega)
      · have ha : a = k + 1 := by omega
        subst ha
        simp [retryLoop, hf2]

theorem retryLoopExhausts {R : Type} (k : Nat) (g : Nat → Nat)
    (f : Nat → CallOutcome R)
    (hf1 : ∀ n, 1 ≤ n → n ≤ k → f n = CallOutcome.transient (g n)) :
    ∀ (rem a : Nat) (last : Option Nat), a + rem = k + 1 → 1 ≤ a → a ≤ k →
      retryLoop f k a rem last = RetryResult.noAttemptsLeft (some (g k))
  | 0, a, last => by
      intro h1 h2 h3
      omega
  | rem + 1, a, last => by
      intro h1 h2 h3
      simp only [retryLoop, hf1 a h2 h3]
      by_cases hak : a = k
      · subst hak
        simp
      · rw [if_neg (by simp only [beq_iff_eq]; omega)]
        exact retryLoopExhausts k g f hf1 rem (a + 1) (some (g a))
          (by omega) (by omega) (by omega)

/-- C6: a coroutine failing with allowlisted transient errors exactly `k`
times and then succeeding returns its value under `attempts = k + 1`, raises
`NoAttemptsLeftError` wrapping the final cause under `attempts = k`, and any
non-allowlisted exception on the first call propagates immediately, unwrapped
and unretried, for every attempt budget. -/
theorem retry_policy_transient_exhaustion {R : Type} (k : Nat) (v : R)
    (g : Nat → Nat) (f : Nat → CallOutcome R)
    (hf1 : ∀ n, 1 ≤ n → n ≤ k → f n = CallOutcome.transient (g n))
    (hf2 : f (k + 1) = CallOutcome.ok v) :
    call_with_retries (k + 1) f = RetryResult.value v
  ∧ (1 ≤ k → call_with_retries k f = RetryResult.noAttemptsLeft (some (g k)))
  ∧ (∀ (attempts e : Nat) (fFatal : Nat → CallOutcome R), 1 ≤ attempts →
       fFatal 1 = CallOutcome.fatal e →
       call_with_retries attempts fFatal = RetryResult.uncaught e) := by
  refine ⟨?_, ?_, ?_⟩
  · exact retryLoopSucceeds k v g f hf1 hf2 (k + 1) 1 none (by omega) (by omega) (by omega)
  · intro hk
    exact retryLoopExhausts k g f hf1 k 1 none (by omega) (by omega) hk
  · intro attempts e fFatal hatt hf
    obtain ⟨r, rfl⟩ : ∃ r, attempts = r + 1 := ⟨attempts - 1, by omega⟩
    simp [call_with_retries, retryLoop, hf]

theorem retry_policy_witness :
    call_with_retries 3 (fun n => if n ≤ 2 then CallOutcome.transient n else CallOutcome.ok 42)
      = RetryResult.value 42
  ∧ call_with_retries 2 (fun n => if n ≤ 2 then CallOutcome.transient n else CallOutcome.ok 42)
      = RetryResult.noAttemptsLeft (some 2) := by
  have h := retry_policy_transient_exhaustion 2 42 (fun n => n)
    (fun n => if n ≤ 2 then CallOutcome.transient n else CallOutcome.ok 42)
    (fun n _ h2 => by simp [h2]) (by rfl)
  exact ⟨h.1, h.2.1 (by decide)⟩

end Reconoscope

namespace Reconoscope

/-! ### WMNCollection.chunkate (`reconoscope/wmn/_collection.py`) -/

/-- The skip condition `self.rule_set and not self.rule_set.pre_filter(x)`:
no rule set means nothing is skipped.  `ρ` is the type of raw site records
(Python dicts); the pre-filter itself is `WMNRuleSet.pre_filter`. -/
def preFilterSkips {ρ : Type} (rs : Option (ρ → Bool)) (raw : ρ) : Bool :=
  match rs with
  | none => false
  | some pf => !(pf raw)

/-- The record loop of `WMNCollection.chunkate`.  Each record is skipped by the
iterator's pre-filter, re-checked against the same pre-filter inside the loop
(the redundant check at the top of the loop body), then parsed by
`try_parse_wmn_json` (`parse`, returning `none` for an invalid record, which
is logged and skipped); parsed sites are appended to the accumulator `chunk`,
which is emitted whenever it reaches `chunk_size`, with a final partial chunk
emitted at the end (`if chunk: yield chunk`). -/
def chunkateGo {ρ σ : Type} (rs : Option (ρ → Bool)) (parse : ρ → Option σ)
    (chunk_size : Nat) : List ρ → List σ → List (List σ)
  | [], chunk => if chunk.isEmpty then [] else [chunk]
  | raw :: rest, chunk =>
      if preFilterSkips rs raw then chunkateGo rs parse chunk_size rest chunk
      else if preFilterSkips rs raw then chunkateGo rs parse chunk_size rest chunk
      else
        match parse raw with
        | none => chunkateGo rs parse chunk_size rest chunk
        | some site =>
            let chunk' := chunk ++ [site]
            if chunk'.length ≥ chunk_size then
              chunk' :: chunkateGo rs parse chunk_size rest []
            else chunkateGo rs parse chunk_size rest chunk'

/-- Model of `WMNCollection.chunkate(chunk_size)`: raises `ValueError` for
`chunk_size <= 0`, otherwise chunks the parsed, filtered sites.  The default
(destructive) iterator `iter_site_json` pops records off the END of
`self.sites`, so records are consumed in reverse list order, modelled by
folding over `sites.reverse`. -/
def chunkate {ρ σ : Type} (rs : Option (ρ → Bool)) (parse : ρ → Option σ)
    (sites : List ρ) (chunk_size : Nat) : Except String (List (List σ)) :=
  if chunk_size ≤ 0 then Except.error "chunk_size must be greater than 0"
  else Except.ok (chunkateGo rs parse chunk_size sites.reverse [])

theorem chunkateGo_flatten {ρ σ : Type} (rs : Option (ρ → Bool)) (parse : ρ → Option σ)
    (s : Nat) (siteOf : ρ → σ) :
    ∀ (raws : List ρ) (chunk : List σ),
      (∀ r ∈ raws, preFilterSkips rs r = false) →
      (∀ r ∈ raws, parse r = some (siteOf r)) →
      (chunkateGo rs parse s raws chunk).flatten = chunk ++ raws.map siteOf
  | [], chunk => by
      intro _ _
      by_cases h : chunk.isEmpty
      · rw [List.isEmpty_iff] at h
        subst h
        simp [chunkateGo]
      · simp [chunkateGo, h]
  | raw :: rest, chunk => by
      intro hpre hparse
      have hp := hpre raw (by simp)
      have hq := hparse raw (by simp)
      have hpre2 : ∀ r ∈ rest, preFilterSkips rs r = false :=
        fun r hr => hpre r (by simp [hr])
      have hparse2 : ∀ r ∈ rest, parse r = some (siteOf r) :=
        fun r hr => hparse r (by simp [hr])
      simp only [chunkateGo, hp, Bool.false_eq_true, if_false, hq]
      split
      · rw [List.flatten_cons,
          chunkateGo_flatten rs parse s siteOf rest [] hpre2 hparse2]
        simp
      · rw [chunkateGo_flatten rs parse s siteOf rest (chunk ++ [siteOf raw])
          hpre2 hparse2]
        simp

theorem chunkateGo_length {ρ σ : Type} (rs : Option (ρ → Bool)) (parse : ρ → Option σ)
    (s : Nat) (siteOf : ρ → σ) (hs : 1 ≤ s) :
    ∀ (raws : List ρ) (chunk : List σ),
      chunk.length < s →
      (∀ r ∈ raws, preFilterSkips rs r = false) →
      (∀ r ∈ raws, parse r = some (siteOf r)) →
      (chunkateGo rs parse s raws chunk).length = (chunk.length + raws.length + s - 1) / s
  | [], chunk => by
      intro hlt _ _
      by_cases h : chunk.isEmpty
      · rw [List.isEmpty_iff] at h
        subst h
        simp only [chunkateGo, List.isEmpty_nil, if_true, List.length_nil]
        rw [Nat.div_eq_of_lt (by omega)]
      · have hne : chunk ≠ [] := by simpa [List.isEmpty_iff] using h
        have h1 : 1 ≤ chunk.length := List.length_pos.mpr hne
        simp only [chunkateGo]
        rw [if_neg h, List.length_singleton, List.length_nil]
        rw [Nat.div_eq_of_lt_le (by omega : 1 * s ≤ chunk.length + 0 + s - 1)
          (by omega : chunk.length + 0 + s - 1 < (1 + 1) * s)]
  | raw :: rest, chunk => by
      intro hlt hpre hparse
      have hp := hpre raw (by simp)
      have hq := hparse raw (by simp)
      have hpre2 : ∀ r ∈ rest, preFilterSkips rs r = false :=
        fun r hr => hpre r (by simp [hr])
      have hparse2 : ∀ r ∈ rest, parse r = some (siteOf r) :=
        fun r hr => hparse r (by simp [hr])
      simp only [chunkateGo, hp, Bool.false_eq_true, if_false, hq]
      have hc1 : (chunk ++ [siteOf raw]).length = chunk.length + 1 := by simp
      split
      · next hfull =>
          rw [hc1] at hfull
          have hs1 : chunk.length + 1 = s := by omega
          rw [List.length_cons,
            chunkateGo_length rs parse s siteOf hs rest []
              (by simp only [List.length_nil]; omega) hpre2 hparse2]
          simp only [List.length_nil, List.length_cons]
          rw [show chunk.length + (rest.length + 1) + s - 1
              = (0 + rest.length + s - 1) + s from by omega,
            Nat.add_div_right _ (by omega : 0 < s)]
      · next hnotfull =>
          rw [hc1] at hnotfull
          rw [chunkateGo_length rs parse s siteOf hs rest (chunk ++ [siteOf raw])
            (by rw [hc1]; omega) hpre2 hparse2]
          rw [hc1]
          simp only [List.length_cons]
          congr 1
          omega

end Reconoscope

namespace Reconoscope

theorem chunkateGo_sizes {ρ σ : Type} (rs : Option (ρ → Bool)) (parse : ρ → Option σ)
    (s : Nat) (hs : 1 ≤ s) :
    ∀ (raws : List ρ) (chunk : List σ),
      chunk.length < s →
      ∀ c ∈ chunkateGo rs parse s raws chunk, 1 ≤ c.length ∧ c.length ≤ s
  | [], chunk => by
      intro hlt c hc
      by_cases h : chunk.isEmpty
      · simp [chunkateGo, h] at hc
      · simp only [chunkateGo, if_neg h, List.mem_singleton] at hc
        subst hc
        have hne : c ≠ [] := by simpa [List.isEmpty_iff] using h
        exact ⟨List.length_pos.mpr hne, by omega⟩
  | raw :: rest, chunk => by
      intro hlt c hc
      by_cases hp : preFilterSkips rs raw
      · simp only [chunkateGo, if_pos hp] at hc
        exact chunkateGo_sizes rs parse s hs rest chunk hlt c hc
      · simp only [chunkateGo, if_neg hp] at hc
        cases hq : parse raw with
        | none =>
            rw [hq] at hc
            exact chunkateGo_sizes rs parse s hs rest chunk hlt c hc
        | some site =>
            rw [hq] at hc
            simp only at hc
            have hc1 : (chunk ++ [site]).length = chunk.length + 1 := by simp
            by_cases hfull : (chunk ++ [site]).length ≥ s
            · rw [if_pos hfull] at hc
              rcases List.mem_cons.mp hc with hceq | hcmem
              · subst hceq
                constructor <;> omega
              · exact chunkateGo_sizes rs parse s hs rest []
                  (by simp only [List.length_nil]; omega) c hcmem
            · rw [if_neg hfull] at hc
              exact chunkateGo_sizes rs parse s hs rest (chunk ++ [site])
                (by omega) c hc

theorem chunkateGo_full_chunks {ρ σ : Type} (rs : Option (ρ → Bool))
    (parse : ρ → Option σ) (s : Nat) (hs : 1 ≤ s) :
    ∀ (raws : List ρ) (chunk : List σ),
      chunk.length < s →
      ∀ i, i + 1 < (chunkateGo rs parse s raws chunk).length →
        ((chunkateGo rs parse s raws chunk).getD i []).length = s
  | [], chunk => by
      intro hlt i hi
      by_cases h : chunk.isEmpty
      · simp [chunkateGo, h] at hi
      · simp only [chunkateGo, if_neg h, List.length_singleton] at hi
        omega
  | raw :: rest, chunk => by
      intro hlt i hi
      by_cases hp : preFilterSkips rs raw
      · simp only [chunkateGo, if_pos hp] at hi ⊢
        exact chunkateGo_full_chunks rs parse s hs rest chunk hlt i hi
      · simp only [chunkateGo, if_neg hp] at hi ⊢
        cases hq : parse raw with
        | none =>
            rw [hq] at hi
            dsimp only at hi ⊢
            exact chunkateGo_full_chunks rs parse s hs rest chunk hlt i hi
        | some site =>
            rw [hq] at hi
            dsimp only at hi ⊢
            have hc1 : (chunk ++ [site]).length = chunk.length + 1 := by simp
            by_cases hfull : (chunk ++ [site]).length ≥ s
            · rw [if_pos hfull] at hi ⊢
              cases i with
              | zero =>
                  simp only [List.getD_cons_zero]
                  omega
              | succ j =>
                  simp only [List.getD_cons_succ]
                  simp only [List.length_cons] at hi
                  exact chunkateGo_full_chunks rs parse s hs rest []
                    (by simp only [List.length_nil]; omega) j (by omega)
            · rw [if_neg hfull] at hi ⊢
              exact chunkateGo_full_chunks rs parse s hs rest (chunk ++ [site])
                (by omega) i hi

/-- C7: for a chunk size s >= 2, when every raw record passes the pre-filter
and parses to a site, `chunkate` succeeds and its chunks concatenate to the
parsed sites (consumed in reverse order by the destructive iterator, hence a
permutation containing each site exactly once), form exactly
ceil(N / s) = (N + s - 1) / s chunks, with every chunk of size in [1, s] and
every chunk but the last of size exactly s. -/
theorem wmn_c7_chunkate_partition {ρ σ : Type} [DecidableEq σ]
    (rs : Option (ρ → Bool)) (parse : ρ → Option σ) (siteOf : ρ → σ)
    (sites : List ρ) (s : Nat) (hs : 2 ≤ s)
    (hpre : ∀ r ∈ sites, preFilterSkips rs r = false)
    (hparse : ∀ r ∈ sites, parse r = some (siteOf r)) :
    chunkate rs parse sites s
      = Except.ok (chunkateGo rs parse s sites.reverse [])
  ∧ (chunkateGo rs parse s sites.reverse []).flatten = (sites.map siteOf).reverse
  ∧ (∀ x : σ, ((chunkateGo rs parse s sites.reverse []).flatten).count x
      = (sites.map siteOf).count x)
  ∧ (chunkateGo rs parse s sites.reverse []).length = (sites.length + s - 1) / s
  ∧ (∀ c ∈ chunkateGo rs parse s sites.reverse [], 1 ≤ c.length ∧ c.length ≤ s)
  ∧ (∀ i, i + 1 < (chunkateGo rs parse s sites.reverse []).length →
      ((chunkateGo rs parse s sites.reverse []).getD i []).length = s) := by
  have hpre' : ∀ r ∈ sites.reverse, preFilterSkips rs r = false :=
    fun r hr => hpre r (List.mem_reverse.mp hr)
  have hparse' : ∀ r ∈ sites.reverse, parse r = some (siteOf r) :=
    fun r hr => hparse r (List.mem_reverse.mp hr)
  have hflat := chunkateGo_flatten rs parse s siteOf sites.reverse [] hpre' hparse'
  rw [List.nil_append, List.map_reverse] at hflat
  refine ⟨?_, hflat, ?_, ?_, ?_, ?_⟩
  · unfold chunkate
    rw [if_neg (by omega)]
  · intro x
    rw [hflat, List.count_reverse]
  · have hlen := chunkateGo_length rs parse s siteOf (by omega) sites.reverse []
      (by simp only [List.length_nil]; omega) hpre' hparse'
    rw [hlen, List.length_nil, List.length_reverse, Nat.zero_add]
  · exact chunkateGo_sizes rs parse s (by omega) sites.reverse []
      (by simp only [List.length_nil]; omega)
  · exact chunkateGo_full_chunks rs parse s (by omega) sites.reverse []
      (by simp only [List.length_nil]; omega)

theorem wmn_c7_witness :
    chunkate (none : Option (Nat → Bool)) (fun r => some r) [1, 2, 3, 4, 5] 2
      = Except.ok [[5, 4], [3, 2], [1]] := by
  have h := (wmn_c7_chunkate_partition (none : Option (Nat → Bool)) (fun r => some r)
    (fun r => r) [1, 2, 3, 4, 5] 2 (by decide) (fun r _ => rfl) (fun r _ => rfl)).1
  rw [h]
  rfl

end Reconoscope

namespace Reconoscope

/-! ### WhatsMyName schema (`reconoscope/wmn/_schema.py`) -/

/-- UTF-8 encoding of one Unicode code point, byte by byte. -/
def utf8EncodeCharNat (c : Nat) : Bytes :=
  if c < 128 then [c]
  else if c < 2048 then [192 + c / 64, 128 + c % 64]
  else if c < 65536 then [224 + c / 4096, 128 + c / 64 % 64, 128 + c % 64]
  else [240 + c / 262144, 128 + c / 4096 % 64, 128 + c / 64 % 64, 128 + c % 64]

/-- Python `s.encode('utf-8')`. -/
def strBytes (s : String) : Bytes :=
  (s.data.map Char.toNat).flatMap utf8EncodeCharNat

/-- Test whether `pat` occurs at the start of a char list. -/
def charStartW : List Char → List Char → Bool
  | [], _ => true
  | _ :: _, [] => false
  | p :: ps, c :: cs => p == c && charStartW ps cs

/-- Python `str.replace(pat, rep)` on char lists: replaces non-overlapping
occurrences left to right, spending one unit of fuel per character examined
(each step drops at least one character, so `s.length` fuel always suffices).
All call sites in the embedded code pass a non-empty pattern (an empty
pattern is returned unchanged). -/
def replaceAllFuel (pat rep : List Char) : Nat → List Char → List Char
  | 0, s => s
  | fuel + 1, s =>
      match s with
      | [] => []
      | c :: cs =>
          if pat ≠ [] ∧ charStartW pat (c :: cs) = true then
            rep ++ replaceAllFuel pat rep fuel ((c :: cs).drop pat.length)
          else c :: replaceAllFuel pat rep fuel cs

/-- Python `str.replace(pat, rep)` on char lists. -/
def replaceAll (pat rep s : List Char) : List Char :=
  replaceAllFuel pat rep s.length s

/-- Python `str.replace` on strings. -/
def strReplace (s pat rep : String) : String :=
  String.mk (replaceAll pat.data rep.data s.data)

/-- Python `needle in hay` on strings (code-point level). -/
def strContainsSub (hay needle : String) : Bool :=
  bytesContain (hay.data.map Char.toNat) (needle.data.map Char.toNat)

/-- Python `str.lower()` (per-character, as used on ASCII header values). -/
def strToLower (s : String) : String :=
  String.mk (s.data.map Char.toLower)

/-- Python truthiness of an optional string: `None` and `''` are falsy. -/
def optionStrTruthy : Option String → Bool
  | none => false
  | some s => !(s == "")

/-- Python truthiness of an optional int: `None` and `0` are falsy. -/
def optionNatTruthy : Option Nat → Bool
  | none => false
  | some n => !(n == 0)

/-- Model of `WhatsMyNameEntry`: the required fields of a WhatsMyName record. -/
structure WhatsMyNameEntry where
  name : String
  uri_check : String
  e_code : Nat
  e_string : String
  m_string : String
  cat : String
deriving Repr, DecidableEq

/-- Model of `WhatsMyNameOptions`: the optional fields of a WhatsMyName record.
The Python `headers` dict is an association list here. -/
structure WhatsMyNameOptions where
  m_code : Option Nat := none
  uri_pretty : Option String := none
  headers : List (String × String) := []
  post_body : Option String := none
  known : List String := []
  strip_bad_char : Option String := none
  protection : List String := []
deriving Repr, DecidableEq

/-- Model of `WhatsMyNameSite`: entry plus options. -/
structure WhatsMyNameSite where
  entry : WhatsMyNameEntry
  options : WhatsMyNameOptions
deriving Repr, DecidableEq

/-- Model of `WhatsMyNameSite.method`: POST iff `post_body` is truthy. -/
def WhatsMyNameSite.method (site : WhatsMyNameSite) : String :=
  if optionStrTruthy site.options.post_body then "POST" else "GET"

/-- Model of `WhatsMyNameSite.get_header`: `self.options.headers.get(hdr_name)`. -/
def WhatsMyNameSite.get_header (site : WhatsMyNameSite) (hdr : String) : Option String :=
  (site.options.headers.find? (fun p => p.1 == hdr)).map Prod.snd

/-- The unreserved characters of `urllib.parse.quote(..., safe='')`:
ASCII letters, digits, `_`, `.`, `-`, `~`. -/
def quoteSafeByte (b : Nat) : Bool :=
  (65 ≤ b && b ≤ 90) || (97 ≤ b && b ≤ 122) || (48 ≤ b && b ≤ 57)
    || b == 95 || b == 46 || b == 45 || b == 126

/-- Uppercase hex digit. -/
def hexDigit (n : Nat) : Char :=
  if n < 10 then Char.ofNat (48 + n) else Char.ofNat (55 + n)

/-- Percent-encode a single byte unless it is unreserved. -/
def percentEncodeByte (b : Nat) : List Char :=
  if quoteSafeByte b then [Char.ofNat b]
  else ['%', hexDigit (b / 16), hexDigit (b % 16)]

/-- Model of `urllib.parse.quote(s, safe='')`: percent-encode the UTF-8 bytes. -/
def urlQuote (s : String) : String :=
  String.mk (((strBytes s).map percentEncodeByte).flatten)

/-- Model of `normalize_url(site, account)` from `_schema.py`: strip the configured bad
characters (when truthy), percent-encode, substitute into `uri_check`. -/
def normalize_url (site : WhatsMyNameSite) (account : String) : String :=
  let username :=
    if optionStrTruthy site.options.strip_bad_char then
      strReplace account ((site.options.strip_bad_char).getD "") ""
    else account
  let encoded := urlQuote username
  strReplace site.entry.uri_check "{account}" encoded

/-- Model of `WhatsMyNameSite.get_url`. -/
def WhatsMyNameSite.get_url (site : WhatsMyNameSite) (account : String) : String :=
  normalize_url site account

/-- Model of `WhatsMyNameSite.get_pretty_url`: `None` unless `uri_pretty` is truthy,
otherwise `normalize_url(self, account)` — which reads `uri_check`. -/
def WhatsMyNameSite.get_pretty_url (site : WhatsMyNameSite) (account : String) :
    Option String :=
  if !optionStrTruthy site.options.uri_pretty then none
  else some (normalize_url site account)

/-- Model of `WhatsMyNameSite.get_body`: `None` unless `post_body` is truthy, otherwise
the account substituted into the body template. -/
def WhatsMyNameSite.get_body (site : WhatsMyNameSite) (account : String) :
    Option String :=
  if !optionStrTruthy site.options.post_body then none
  else some (strReplace ((site.options.post_body).getD "") "{account}" account)

/-- Python `a or b` on optional strings (`''` is falsy). -/
def orStrOpt : Option String → Option String → Option String
  | some s, b => if s == "" then b else some s
  | none, b => b

/-- Model of `WhatsMyNameSite.is_content_type_json`: the `Content-Type` header (either
case) exists and contains `application/json` case-insensitively. -/
def WhatsMyNameSite.is_content_type_json (site : WhatsMyNameSite) : Bool :=
  match orStrOpt (site.get_header "Content-Type") (site.get_header "content-type") with
  | none => false
  | some ct => strContainsSub (strToLower ct) "application/json"

end Reconoscope

namespace Reconoscope

example : urlQuote "alice" = "alice" := by decide
example : urlQuote "a b/ä" = "a%20b%2F%C3%A4" := by decide
example : strReplace "https://x.com/{account}/p" "{account}" "bob" = "https://x.com/bob/p" := by decide

end Reconoscope

namespace Reconoscope

/-! ### WMNRequest (`reconoscope/wmn/_scanner.py`) -/

/-- Model of `WMNRequest`: method, resolved URL, headers, and at most one body
representation.  `J` abstracts the values `json.loads` may produce. -/
structure WMNRequest (J : Type) where
  method : String
  url : String
  headers : List (String × String)
  json_payload : Option J := none
  content_bytes : Option Bytes := none

/-- Model of `WMNRequest.load_body`: an empty body string leaves the request untouched;
otherwise `json.loads` (abstracted as the oracle `jsonParse`) fills
`json_payload` on success and `content_bytes` with the UTF-8 bytes on
`JSONDecodeError`. -/
def WMNRequest.load_body {J : Type} (jsonParse : String → Option J)
    (r : WMNRequest J) (body_string : String) : WMNRequest J :=
  if body_string == "" then r
  else
    match jsonParse body_string with
    | some j => { r with json_payload := some j }
    | none => { r with content_bytes := some (strBytes body_string) }

/-- Model of `WMNRequest.from_site`: builds the request for a site and account.
GET carries no body; a non-JSON content type takes the raw UTF-8 body; a JSON
content type goes through `load_body`. -/
def WMNRequest.from_site {J : Type} (jsonParse : String → Option J)
    (site : WhatsMyNameSite) (account : String) : WMNRequest J :=
  let parts : WMNRequest J :=
    { method := site.method
      url := site.get_url account
      headers := site.options.headers }
  if site.method == "GET" then parts
  else
    let body_string := (site.get_body account).getD ""
    if !site.is_content_type_json then
      { parts with content_bytes := some (strBytes body_string) }
    else
      parts.load_body jsonParse body_string

/-- C9: on every construction path (GET, non-JSON POST, JSON POST with
parseable body, JSON POST with unparseable body, empty body) the request
never carries both a JSON payload and raw body bytes. -/
theorem wmn_c9_body_exclusive {J : Type} (jsonParse : String → Option J)
    (site : WhatsMyNameSite) (account : String) :
    (WMNRequest.from_site jsonParse site account).json_payload = none
  ∨ (WMNRequest.from_site jsonParse site account).content_bytes = none := by
  unfold WMNRequest.from_site WMNRequest.load_body
  dsimp only
  split
  · exact Or.inl rfl
  · split
    · exact Or.inl rfl
    · split
      · exact Or.inl rfl
      · split
        · exact Or.inr rfl
        · exact Or.inl rfl

/-- C10: `get_pretty_url` ignores the `uri_pretty` template: when `uri_pretty`
is truthy it returns exactly `get_url` (the account substituted into
`uri_check`), its value does not depend on the content of `uri_pretty`, and
when `uri_pretty` is absent (or empty, hence falsy) it returns no URL. -/
theorem wmn_c10_pretty_url_ignores_template (site : WhatsMyNameSite) (account : String) :
    (optionStrTruthy site.options.uri_pretty = true →
       site.get_pretty_url account = some (site.get_url account))
  ∧ (optionStrTruthy site.options.uri_pretty = false →
       site.get_pretty_url account = none)
  ∧ (∀ p p' : String, p ≠ "" → p' ≠ "" →
       WhatsMyNameSite.get_pretty_url
         { site with options := { site.options with uri_pretty := some p } } account
       = WhatsMyNameSite.get_pretty_url
         { site with options := { site.options with uri_pretty := some p' } } account) := by
  refine ⟨?_, ?_, ?_⟩
  · intro h
    simp [WhatsMyNameSite.get_pretty_url, WhatsMyNameSite.get_url, h]
  · intro h
    simp [WhatsMyNameSite.get_pretty_url, h]
  · intro p p' hp hp'
    have htp : optionStrTruthy (some p) = true := by
      simp [optionStrTruthy, hp]
    have htp' : optionStrTruthy (some p') = true := by
      simp [optionStrTruthy, hp']
    simp only [WhatsMyNameSite.get_pretty_url, htp, htp', Bool.not_true,
      Bool.false_eq_true, if_false]
    simp [normalize_url]

end Reconoscope

namespace Reconoscope

/-- Model of `WMNResult` from `_scanner.py`. -/
structure WMNResult where
  site : String
  url : String
  status_code : Nat
  success : Bool
deriving Repr, DecidableEq

/-- Model of `check_wmn_site` with the HTTP exchange abstracted to the observed
response: `status` is `response.status_code` and `chunks` the streamed body.
The `retry_policy` decorator and the stream-level timeout handler are outside
this pure kernel.  Gate 1 resolves unsuccessfully when `m_code` is truthy and
equal to the status; gate 2 when the status differs from `e_code`; otherwise
the body is streamed through `_WMNStreamReader.check_stream` with
`must_contain = e_string`, `must_not_contain = m_string` and the default
10 MB cap. -/
def check_wmn_site (site : WhatsMyNameSite) (username : String)
    (status : Nat) (chunks : List Bytes) : WMNResult :=
  let invalid_status := site.options.m_code
  let expect_status := site.entry.e_code
  let url := site.get_url username
  if optionNatTruthy invalid_status && (status == invalid_status.getD 0) then
    { site := site.entry.name, url := url, status_code := status, success := false }
  else if status != expect_status then
    { site := site.entry.name, url := url, status_code := status, success := false }
  else
    { site := site.entry.name, url := url, status_code := status,
      success := check_stream (some (strBytes site.entry.e_string))
        (some (strBytes site.entry.m_string)) 10 chunks }

/-- C5: if the configured invalid-status code matches the observed status
(gate 1), or the observed status differs from the expected success code
(gate 2), the probe resolves with success = false and the streamed body is
never consulted: the result is one constant record for every body. -/
theorem wmn_c5_status_gates (site : WhatsMyNameSite) (username : String) (status : Nat) :
    (∀ c, site.options.m_code = some c → c ≠ 0 → status = c →
       ∀ chunks, check_wmn_site site username status chunks
         = { site := site.entry.name, url := site.get_url username,
             status_code := status, success := false })
  ∧ (status ≠ site.entry.e_code →
       ∀ chunks, check_wmn_site site username status chunks
         = { site := site.entry.name, url := site.get_url username,
             status_code := status, success := false }) := by
  constructor
  · intro c hm hc0 hst chunks
    subst hst
    simp [check_wmn_site, hm, optionNatTruthy, hc0]
  · intro hne chunks
    unfold check_wmn_site
    dsimp only
    split
    · rfl
    · rw [if_pos (bne_iff_ne.mpr hne)]

/-- A concrete WhatsMyName site used to instantiate theorems. -/
def demoSite : WhatsMyNameSite :=
  { entry :=
      { name := "demo"
        uri_check := "https://demo.example/{account}"
        e_code := 200
        e_string := "ok"
        m_string := "missing"
        cat := "social" }
    options :=
      { m_code := some 404
        uri_pretty := some "https://demo.example/u/{account}" } }

theorem wmn_c5_witness :
    check_wmn_site demoSite "alice" 404 [[111, 107]]
      = { site := "demo", url := "https://demo.example/alice",
          status_code := 404, success := false } := by
  rw [(wmn_c5_status_gates demoSite "alice" 404).1 404 rfl (by decide) rfl [[111, 107]]]
  rfl

theorem wmn_c10_witness :
    demoSite.get_pretty_url "alice" = some (demoSite.get_url "alice") :=
  (wmn_c10_pretty_url_ignores_template demoSite "alice").1 (by decide)

end Reconoscope

namespace Reconoscope

/-! ### URL verification (`reconoscope/http/_client.py`) -/

/-- A parsed `httpx.URL`, modelled at the component level: scheme, host and
everything after the authority. -/
structure ModelURL where
  scheme : String
  host : String
  tail : String
deriving Repr, DecidableEq

/-- Split a char list on `'.'` (like `"a.b".split('.')`). -/
def splitOnDot : List Char → List (List Char)
  | [] => [[]]
  | c :: cs =>
      let groups := splitOnDot cs
      if c == '.' then [] :: groups
      else
        match groups with
        | [] => [[c]]
        | g :: gs => (c :: g) :: gs

/-- One dotted-quad octet per `ipaddress`: 1-3 ASCII digits, no leading zero,
value at most 255. -/
def parseOctet (cs : List Char) : Option Nat :=
  if cs.length == 0 || 3 < cs.length then none
  else if !(cs.all fun c => 48 ≤ c.toNat && c.toNat ≤ 57) then none
  else if 1 < cs.length && cs.headD '0' == '0' then none
  else
    let v := cs.foldl (fun acc c => acc * 10 + (c.toNat - 48)) 0
    if 255 < v then none else some v

/-- Model of `ipaddress.ip_address(host)` for IPv4 dotted-quad literals, as the 32-bit
value; anything else (including IPv6 literals, outside this model) is `none`. -/
def parseIPv4 (host : String) : Option Nat :=
  let parts := splitOnDot host.data
  if parts.length != 4 then none
  else
    match parts.map parseOctet with
    | [some a, some b, some c, some d] =>
        some (a * 16777216 + b * 65536 + c * 256 + d)
    | _ => none

/-- Membership of a 32-bit IPv4 value in a CIDR network. -/
def inNet (addr netAddr maskBits : Nat) : Bool :=
  addr / 2 ^ (32 - maskBits) == netAddr / 2 ^ (32 - maskBits)

/-- The IPv4 private networks of `ipaddress` (`_IPv4Constants._private_networks`). -/
def ipv4PrivateNets : List (Nat × Nat) :=
  [(0, 8), (167772160, 8), (2130706432, 8), (2851995648, 16),
   (2886729728, 12), (3221225472, 29), (3221225642, 31), (3221226016, 24),
   (3232235520, 16), (3323068416, 15), (3325256704, 24), (3405803776, 24),
   (4026531840, 4), (4294967295, 32)]

def ipv4IsPrivate (a : Nat) : Bool := ipv4PrivateNets.any fun p => inNet a p.1 p.2

def ipv4IsLoopback (a : Nat) : Bool := inNet a 2130706432 8

def ipv4IsLinkLocal (a : Nat) : Bool := inNet a 2851995648 16

def ipv4IsMulticast (a : Nat) : Bool := inNet a 3758096384 4

def ipv4IsReserved (a : Nat) : Bool := inNet a 4026531840 4

def ipv4IsUnspecified (a : Nat) : Bool := a == 0

/-- Disjunction of the forbidden IPv4 ranges checked by
`host_is_private_literal`. -/
def ipv4Forbidden (a : Nat) : Bool :=
  ipv4IsPrivate a || ipv4IsLoopback a || ipv4IsLinkLocal a
    || ipv4IsMulticast a || ipv4IsUnspecified a || ipv4IsReserved a

/-- Split a char list on a separator character (like `str.split(sep)`). -/
def splitOnChar (sep : Char) : List Char → List (List Char)
  | [] => [[]]
  | c :: cs =>
      let groups := splitOnChar sep cs
      if c == sep then [] :: groups
      else
        match groups with
        | [] => [[c]]
        | g :: gs => (c :: g) :: gs

/-- Value of one hexadecimal digit character. -/
def hexVal (c : Char) : Option Nat :=
  if 48 ≤ c.toNat ∧ c.toNat ≤ 57 then some (c.toNat - 48)
  else if 97 ≤ c.toNat ∧ c.toNat ≤ 102 then some (c.toNat - 87)
  else if 65 ≤ c.toNat ∧ c.toNat ≤ 70 then some (c.toNat - 55)
  else none

/-- One IPv6 hextet per `ipaddress._parse_hextet`: 1-4 hex digits. -/
def parseHextet (cs : List Char) : Option Nat :=
  if cs.length == 0 || 4 < cs.length then none
  else (cs.mapM hexVal).map (List.foldl (fun a d => a * 16 + d) 0)

/-- Tokenize colon-separated IPv6 parts: `none` is an empty part (a candidate
half of a `::` gap), `some v` a parsed hextet; a malformed part fails. -/
def hextetTokens : List (List Char) → Option (List (Option Nat))
  | [] => some []
  | p :: ps =>
      match hextetTokens ps with
      | none => none
      | some ts =>
          if p.isEmpty then some (none :: ts)
          else
            match parseHextet p with
            | none => none
            | some v => some (some v :: ts)

/-- Assemble the 128-bit value from the part tokens per
`_BaseV6._ip_int_from_string`: at most one `::` gap strictly inside the part
list, a leading (trailing) empty part only as half of a leading (trailing)
`::`, exactly 8 hextets without a gap and at most 7 with one. -/
def assembleV6 (ts : List (Option Nat)) : Option Nat :=
  let L := ts.length
  if 9 < L then none
  else
    let middleGaps := (List.range L).filter
      (fun i => decide (0 < i) && decide (i + 1 < L) && (ts.getD i (some 0)).isNone)
    match middleGaps with
    | [] =>
        if L != 8 then none
        else if ts.any (fun t => t.isNone) then none
        else some (ts.foldl (fun acc t => acc * 65536 + t.getD 0) 0)
    | [i] =>
        let hi0 := i
        let lo0 := L - i - 1
        if (ts.getD 0 (some 0)).isNone ∧ hi0 ≠ 1 then none
        else if (ts.getD (L - 1) (some 0)).isNone ∧ lo0 ≠ 1 then none
        else
          let hi := if (ts.getD 0 (some 0)).isNone then 0 else hi0
          let lo := if (ts.getD (L - 1) (some 0)).isNone then 0 else lo0
          if 8 - (hi + lo) < 1 then none
          else
            let hiVal := (ts.take hi).foldl (fun acc t => acc * 65536 + t.getD 0) 0
            let loVal := (ts.drop (L - lo)).foldl (fun acc t => acc * 65536 + t.getD 0) 0
            some (hiVal * 2 ^ (16 * (8 - hi)) + loVal)
    | _ => none

/-- Model of `IPv6Address` textual parsing without a zone id
(`_BaseV6._ip_int_from_string`): at least 3 colon-separated parts, an
embedded dotted-quad tail replaced by its two hextets, then assembly. -/
def parseIPv6Body (addr : List Char) : Option Nat :=
  let parts := splitOnChar ':' addr
  if parts.length < 3 then none
  else
    let lastPart := (parts.getLast?).getD []
    let tokens :=
      if lastPart.any (fun c => c == '.') then
        match parseIPv4 (String.mk lastPart) with
        | none => none
        | some v4 =>
            match hextetTokens parts.dropLast with
            | none => none
            | some ts => some (ts ++ [some (v4 / 65536), some (v4 % 65536)])
      else hextetTokens parts
    match tokens with
    | none => none
    | some ts => assembleV6 ts

/-- Model of `ipaddress.IPv6Address(host)` as a 128-bit value: an optional
`%zone` suffix is split off first (the zone must be non-empty and contain no
`%`). -/
def parseIPv6 (host : String) : Option Nat :=
  let cs := host.data
  let addr := cs.takeWhile (fun c => c != '%')
  match cs.dropWhile (fun c => c != '%') with
  | [] => parseIPv6Body cs
  | _ :: scope =>
      if scope.isEmpty || scope.any (fun c => c == '%') then none
      else parseIPv6Body addr

/-- Membership of a 128-bit IPv6 value in a CIDR network. -/
def inNet6 (addr netAddr maskBits : Nat) : Bool :=
  addr / 2 ^ (128 - maskBits) == netAddr / 2 ^ (128 - maskBits)

/-- The IPv6 private networks of `ipaddress`
(`_IPv6Constants._private_networks`). -/
def ipv6PrivateNets : List (Nat × Nat) :=
  [(1, 128), (0, 128), (0xffff * 2 ^ 32, 96), (0x0100 * 2 ^ 112, 64),
   (0x2001 * 2 ^ 112, 23), (0x20010002 * 2 ^ 96, 48), (0x20010db8 * 2 ^ 96, 32),
   (0x20010010 * 2 ^ 96, 28), (0xfc00 * 2 ^ 112, 7), (0xfe80 * 2 ^ 112, 10)]

/-- The IPv6 reserved networks of `ipaddress`
(`_IPv6Constants._reserved_networks`). -/
def ipv6ReservedNets : List (Nat × Nat) :=
  [(0, 8), (0x0100 * 2 ^ 112, 8), (0x0200 * 2 ^ 112, 7), (0x0400 * 2 ^ 112, 6),
   (0x0800 * 2 ^ 112, 5), (0x1000 * 2 ^ 112, 4), (0x4000 * 2 ^ 112, 3),
   (0x6000 * 2 ^ 112, 3), (0x8000 * 2 ^ 112, 3), (0xa000 * 2 ^ 112, 3),
   (0xc000 * 2 ^ 112, 3), (0xe000 * 2 ^ 112, 4), (0xf000 * 2 ^ 112, 5),
   (0xf800 * 2 ^ 112, 6), (0xfe00 * 2 ^ 112, 9)]

def ipv6IsPrivate (a : Nat) : Bool := ipv6PrivateNets.any fun p => inNet6 a p.1 p.2

def ipv6IsReserved (a : Nat) : Bool := ipv6ReservedNets.any fun p => inNet6 a p.1 p.2

def ipv6IsLoopback (a : Nat) : Bool := a == 1

def ipv6IsLinkLocal (a : Nat) : Bool := inNet6 a (0xfe80 * 2 ^ 112) 10

def ipv6IsMulticast (a : Nat) : Bool := inNet6 a (0xff00 * 2 ^ 112) 8

def ipv6IsUnspecified (a : Nat) : Bool := a == 0

/-- Disjunction of the forbidden IPv6 ranges checked by
`host_is_private_literal`. -/
def ipv6Forbidden (a : Nat) : Bool :=
  ipv6IsPrivate a || ipv6IsLoopback a || ipv6IsLinkLocal a
    || ipv6IsMulticast a || ipv6IsUnspecified a || ipv6IsReserved a

/-- Model of `host_is_private_literal`: `ipaddress.ip_address(host)` succeeding
(IPv4 dotted-quad first, then IPv6, as `ip_address` tries them) and the
address lying in a private/loopback/link-local/multicast/unspecified/reserved
range; a host that does not parse as an IP literal gives `False`.  Network
lists follow CPython 3.11's `ipaddress` constants. -/
def host_is_private_literal (host : String) : Bool :=
  match parseIPv4 host with
  | some ip => ipv4Forbidden ip
  | none =>
      match parseIPv6 host with
      | some ip => ipv6Forbidden ip
      | none => false

/-- Label separators of the idna codec: `.` and the ideographic/fullwidth
stops U+3002, U+FF0E, U+FF61. -/
def isIdnaDot (c : Nat) : Bool := c == 46 || c == 12290 || c == 65294 || c == 65377

/-- Split code points into labels at the idna separators. -/
def splitIdnaLabels : List Nat → List (List Nat)
  | [] => [[]]
  | c :: cs =>
      let groups := splitIdnaLabels cs
      if isIdnaDot c then [] :: groups
      else
        match groups with
        | [] => [[c]]
        | g :: gs => (c :: g) :: gs

/-- Per-character nameprep (RFC 3491: table B.1 deletion and B.2 case
folding, then NFKC), as computed by `encodings.idna.nameprep`; `none` is a
prohibited character.  The table is exact for code points up to U+00FF;
higher code points are modelled as nameprep-stable, which is exact for
lower-case and caseless scripts (e.g. CJK) — upper-case or compatibility
characters beyond U+00FF, and sequences whose normalization composes across
characters, are outside the modelled domain. -/
def nameprepChar (c : Nat) : Option (List Nat) :=
  if c ≤ 64 then some [c]
  else if 65 ≤ c ∧ c ≤ 90 then some [c + 32]
  else if c ≤ 127 then some [c]
  else if c ≤ 159 then none
  else if c = 160 then some [32]
  else if c = 168 then some [32, 776]
  else if c = 170 then some [97]
  else if c = 173 then some []
  else if c = 175 then some [32, 772]
  else if c = 178 then some [50]
  else if c = 179 then some [51]
  else if c = 180 then some [32, 769]
  else if c = 181 then some [956]
  else if c = 184 then some [32, 807]
  else if c = 185 then some [49]
  else if c = 186 then some [111]
  else if c = 188 then some [49, 8260, 52]
  else if c = 189 then some [49, 8260, 50]
  else if c = 190 then some [51, 8260, 52]
  else if 192 ≤ c ∧ c ≤ 214 then some [c + 32]
  else if c = 223 then some [115, 115]
  else if 216 ≤ c ∧ c ≤ 222 then some [c + 32]
  else some [c]

/-- Model of `encodings.idna.nameprep` on a label. -/
def nameprep (label : List Nat) : Option (List Nat) :=
  match label.mapM nameprepChar with
  | none => none
  | some pieces => some pieces.flatten

/-- Punycode digit `d` (0-35) as a code point (`a`-`z`, `0`-`9`). -/
def punyDigitChar (d : Nat) : Nat :=
  if d < 26 then 97 + d else 22 + d

/-- Variable-length-integer digits of the punycode encoder (RFC 3492):
emits the digits of `q` under the current bias.  Each step divides `q` by at
least 10, so the fuel bounds every reachable iteration count. -/
def punyIntLoop : Nat → Nat → Nat → Nat → List Nat
  | 0, q, _, _ => [punyDigitChar q]
  | fuel + 1, q, k, bias =>
      let t := if k ≤ bias then 1 else if bias + 26 ≤ k then 26 else k - bias
      if q < t then [punyDigitChar q]
      else punyDigitChar (t + (q - t) % (36 - t)) ::
        punyIntLoop fuel ((q - t) / (36 - t)) (k + 36) bias

/-- Inner loop of the punycode bias adaptation; each step divides by 35, so
the fuel bounds every reachable iteration count. -/
def punyAdaptLoop : Nat → Nat → Nat → Nat × Nat
  | 0, delta, k => (delta, k)
  | fuel + 1, delta, k =>
      if 455 < delta then punyAdaptLoop fuel (delta / 35) (k + 36)
      else (delta, k)

/-- The punycode bias adaptation (RFC 3492 `adapt`). -/
def punyAdapt (delta numPoints : Nat) (firstTime : Bool) : Nat :=
  let d1 := if firstTime then delta / 700 else delta / 2
  let d2 := d1 + d1 / numPoints
  let dk := punyAdaptLoop 64 d2 0
  dk.2 + 36 * dk.1 / (dk.1 + 38)

/-- One code point of the punycode insertion pass: count points below the
current insertion value `m` and emit an encoded delta at each occurrence of
`m`.  State: (delta, bias, handled count, output). -/
def punyInner (b m : Nat) :
    Nat × Nat × Nat × List Nat → Nat → Nat × Nat × Nat × List Nat
  | (delta, bias, h, acc), c =>
      if c < m then (delta + 1, bias, h, acc)
      else if c == m then
        let digits := punyIntLoop 64 delta 36 bias
        let bias2 := punyAdapt delta (h + 1) (h == b)
        (0, bias2, h + 1, acc ++ digits)
      else (delta, bias, h, acc)

/-- Outer loop of the punycode encoder: one pass per distinct inserted
code-point value; every pass inserts at least one code point, so
`input.length + 1` fuel suffices. -/
def punyMainLoop (b : Nat) (input : List Nat) :
    Nat → Nat → Nat → Nat → Nat → List Nat → List Nat
  | 0, _, _, _, _, acc => acc
  | fuel + 1, n, delta, bias, h, acc =>
      if input.length ≤ h then acc
      else
        let m := (input.filter (fun c => n ≤ c)).foldl Nat.min 1114112
        let st := input.foldl (punyInner b m) (delta + (m - n) * (h + 1), bias, h, acc)
        punyMainLoop b input fuel (m + 1) (st.1 + 1) st.2.1 st.2.2.1 st.2.2.2

/-- Model of `label.encode('punycode')` (RFC 3492 encoding). -/
def punycodeEncode (input : List Nat) : List Nat :=
  let basic := input.filter (fun c => c < 128)
  let b := basic.length
  let digits := punyMainLoop b input (input.length + 1) 128 0 72 b []
  (if 0 < b then basic ++ [45] else []) ++ digits

/-- The ACE marker `xn--` that opens every encoded label. -/
def aceStart : List Nat := [120, 110, 45, 45]

/-- Model of `encodings.idna.ToASCII` on one label: an ASCII label is
returned unchanged when its length lies in (0, 64); otherwise the label is
nameprep-ped, re-checked for ASCII, must not already carry the ACE readable
prefix, and is punycode-encoded under `xn--` with the same length bound.
`none` is `UnicodeError`. -/
def ToASCII (label : List Nat) : Option (List Nat) :=
  if label.all (fun c => c < 128) then
    if 0 < label.length ∧ label.length < 64 then some label else none
  else
    match nameprep label with
    | none => none
    | some prepped =>
        if prepped.all (fun c => c < 128) then
          if 0 < prepped.length ∧ prepped.length < 64 then some prepped else none
        else if bytesStartW prepped aceStart then none
        else
          let ace := aceStart ++ punycodeEncode prepped
          if 0 < ace.length ∧ ace.length < 64 then some ace else none

/-- Model of `normalize_idna_host`: `host.encode('idna').decode('ascii')`,
falling back to `host` unchanged on `UnicodeError`.  The codec returns an
ASCII host unchanged (its label-length validation either passes and returns
the input, or raises, which the fallback catches by returning the input); a
non-ASCII host is split at the idna separator dots, a single trailing dot is
preserved, and every label goes through `ToASCII` (nameprep + punycode),
any failure falling back to the unchanged host. -/
def normalize_idna_host (host : String) : String :=
  let cs := host.data.map Char.toNat
  if cs.isEmpty then host
  else if cs.all (fun c => c < 128) then host
  else
    let labels := splitIdnaLabels cs
    let trailingDot := labels.getLast? == some ([] : List Nat)
    let labels2 := if trailingDot then labels.dropLast else labels
    match labels2.mapM ToASCII with
    | none => host
    | some encs =>
        let joined := (List.intersperse [46] encs).flatten
          ++ (if trailingDot then [46] else [])
        String.mk (joined.map Char.ofNat)

/-- Model of `verify_http_url` over a parsed URL: rewrite `http` to `https`, reject any
other scheme, pass an empty host through, reject private IP-literal hosts,
and substitute the IDNA-normalized host otherwise. -/
def verify_http_url (u : ModelURL) : Except String ModelURL :=
  let u := if u.scheme == "http" then { u with scheme := "https" } else u
  if u.scheme != "https" then
    Except.error ("Rejected unsupported URL scheme: " ++ u.scheme)
  else if u.host == "" then
    Except.ok u
  else if host_is_private_literal u.host then
    Except.error ("Rejected private/invalid host: " ++ u.host)
  else
    Except.ok { u with host := normalize_idna_host u.host }

/-- C8: `verify_http_url` treats a bare-http URL exactly as its https
rewrite; rejects every scheme other than http/https; rejects any (non-empty)
host that parses as an IPv4 or IPv6 literal in a forbidden range; accepts the
remaining http/https URLs with the IDNA-normalized host substituted; and on
the concrete vectors rejects `http://127.0.0.1/x` and `https://[::1]/x`,
accepts `http://example.com/x` as `https://example.com/x`, and accepts a
non-ASCII host with its ASCII-compatible (punycode) form substituted. -/
theorem http_verify_url_gates :
    (∀ u : ModelURL, u.scheme = "http" →
       verify_http_url u = verify_http_url { u with scheme := "https" })
  ∧ (∀ u : ModelURL, u.scheme ≠ "http" → u.scheme ≠ "https" →
       verify_http_url u
         = Except.error ("Rejected unsupported URL scheme: " ++ u.scheme))
  ∧ (∀ u : ModelURL, (u.scheme = "http" ∨ u.scheme = "https") →
       host_is_private_literal u.host = true →
       verify_http_url u
         = Except.error ("Rejected private/invalid host: " ++ u.host))
  ∧ (∀ u : ModelURL, (u.scheme = "http" ∨ u.scheme = "https") →
       u.host ≠ "" → host_is_private_literal u.host = false →
       verify_http_url u
         = Except.ok { scheme := "https", host := normalize_idna_host u.host,
                       tail := u.tail })
  ∧ verify_http_url ⟨"http", "127.0.0.1", "/x"⟩
      = Except.error "Rejected private/invalid host: 127.0.0.1"
  ∧ verify_http_url ⟨"https", "::1", "/x"⟩
      = Except.error "Rejected private/invalid host: ::1"
  ∧ verify_http_url ⟨"http", "example.com", "/x"⟩
      = Except.ok ⟨"https", "example.com", "/x"⟩
  ∧ verify_http_url ⟨"http", "bücher.example", "/x"⟩
      = Except.ok ⟨"https", "xn--bcher-kva.example", "/x"⟩ := by
  refine ⟨?_, ?_, ?_, ?_, rfl, rfl, rfl, rfl⟩
  · intro u h
    simp [verify_http_url, h]
  · intro u h1 h2
    have hb1 : (u.scheme == "http") = false := by
      simpa using h1
    simp [verify_http_url, hb1, h2]
  · intro u hs hpriv
    have hhost : u.host ≠ "" := by
      intro he
      rw [he] at hpriv
      have hfalse : host_is_private_literal "" = false := by decide
      rw [hfalse] at hpriv
      exact Bool.false_ne_true hpriv
    rcases hs with h | h <;>
      simp [verify_http_url, h, hpriv, hhost]
  · intro u hs hhost hpriv
    rcases hs with h | h <;>
      simp [verify_http_url, h, hpriv, hhost]

theorem http_verify_url_witness :
    verify_http_url ⟨"https", "wikipedia.org", "/wiki"⟩
      = Except.ok ⟨"https", "wikipedia.org", "/wiki"⟩ :=
  (http_verify_url_gates).2.2.2.1 ⟨"https", "wikipedia.org", "/wiki"⟩
    (Or.inr rfl) (by decide) (by decide)

end Reconoscope

namespace Reconoscope

example : host_is_private_literal "::1" = true := by decide
example : host_is_private_literal "::" = true := by decide
example : host_is_private_literal "fe80::1" = true := by decide
example : host_is_private_literal "fe80::1%eth0" = true := by decide
example : host_is_private_literal "fe80::1%" = false := by decide
example : host_is_private_literal "2001:db8::1" = true := by decide
example : host_is_private_literal "2607:f8b0:4004:c07::71" = false := by decide
example : host_is_private_literal "::ffff:8.8.8.8" = true := by decide
example : host_is_private_literal "1:2:3:4:5:6:7:8" = true := by decide
example : host_is_private_literal "1:2:3:4:5:6:7:8:9" = false := by decide
example : host_is_private_literal "1::8" = true := by decide
example : host_is_private_literal "2001:db8::1::2" = false := by decide
example : host_is_private_literal "12345::" = false := by decide
example : host_is_private_literal "g::1" = false := by decide
example : host_is_private_literal ":::" = false := by decide
example : host_is_private_literal "ff02::1" = true := by decide
example : host_is_private_literal "2002::1" = false := by decide
example : host_is_private_literal "fc00::5" = true := by decide
example : host_is_private_literal "fdff::9" = true := by decide
example : host_is_private_literal "2001:4860:4860::8888" = false := by decide
example : host_is_private_literal "1.2.3.4" = false := by decide
example : host_is_private_literal "10.0.0.1" = true := by decide
example : host_is_private_literal "" = false := by decide
example : host_is_private_literal "example.com" = false := by decide
example : host_is_private_literal "1:2:3:4:5:6:1.2.3.4" = true := by decide
example : host_is_private_literal "1:2:3:4:5:6:7:1.2.3.4" = false := by decide
example : host_is_private_literal "::1.2.3.4" = true := by decide
example : host_is_private_literal "00:0::1" = true := by decide
example : host_is_private_literal "00000:0::1" = false := by decide
example : host_is_private_literal "0:1::" = true := by decide

example : parseIPv6 "2001:0db8::0001" = some 42540766411282592856903984951653826561 := by decide
example : parseIPv6 "::2:3:4:5:6:7:8" = some 158459951879775902770104041480 := by decide
example : parseIPv6 "2607:f8b0:4004:c07::71" = some 50552053919386788217902483013806063729 := by decide

example : normalize_idna_host "example.com" = "example.com" := by decide
example : normalize_idna_host "EXAMPLE.COM" = "EXAMPLE.COM" := by decide
example : normalize_idna_host "a..b" = "a..b" := by decide
example : normalize_idna_host "bücher.example" = "xn--bcher-kva.example" := by decide
example : normalize_idna_host "Bücher.example" = "xn--bcher-kva.example" := by decide
example : normalize_idna_host "BÜCHER.example" = "xn--bcher-kva.example" := by decide
example : normalize_idna_host "ß.example" = "ss.example" := by decide
example : normalize_idna_host "straße.de" = "strasse.de" := by decide
example : normalize_idna_host "bücher." = "xn--bcher-kva." := by decide
example : normalize_idna_host "ü" = "xn--tda" := by decide
example : normalize_idna_host "é.fr" = "xn--9ca.fr" := by decide
example : normalize_idna_host "müller.de" = "xn--mller-kva.de" := by decide
example : normalize_idna_host "società.it" = "xn--societ-nta.it" := by decide
example : normalize_idna_host "grüße.de" = "xn--grsse-lva.de" := by decide
example : normalize_idna_host "日本.jp" = "xn--wgv71a.jp" := by decide
example : normalize_idna_host "xn--ä.com" = "xn--ä.com" := by decide
example : normalize_idna_host "ä·b.com" = "xn--b-fda8k.com" := by decide
example : normalize_idna_host "ä­b.com" = "xn--b-zfa.com" := by decide
example : normalize_idna_host "µ.com" = "xn--xxa.com" := by decide
example : normalize_idna_host "ä。com" = "xn--4ca.com" := by decide
example : normalize_idna_host "äb．com" = "xn--b-zfa.com" := by decide
example : normalize_idna_host "äöü-ÄÖÜ.com" = "xn----zfab4ec7ad.com" := by decide

end Reconoscope
